import Mathlib

/-!
Shallow embedding of `src/index.ts` of the binance-ido-scanner repository:
a script that scans a window of recent blocks, collects the token contracts
of `approve(address,uint256)` transactions directed at one target spender,
and enriches each discovered token with its `name()`.

Machine integers of the source are modelled as `Nat` (byte values are the
0..255 entries of `List Nat`); JavaScript promise rejection is modelled as
the `Except.error` branch of `Except Unit`, and a caught exception is a
branch that returns normally.
-/

namespace IdoScanner

/-- Textual representation of a 20-byte EVM address: the numeric value of its
20 bytes together with a tag for the letter-casing variant in which the hex
string is written.  The casing carries no information about the bytes. -/
structure AddrStr where
  bytes : Nat
  caseTag : Nat
deriving DecidableEq

/-- Model of `ethers.getAddress` (src/index.ts lines 7, 82, 85): validates a
textual address and returns its checksum-normalized form.  The checksummed
output is determined by the 20 address bytes alone, so two textual addresses
normalize equal exactly when their byte values agree; we represent the
normalized form by that numeric value, reduced to 160 bits. -/
def getAddress (a : AddrStr) : Nat := a.bytes % 2 ^ 160

/-- Source line 7: `TARGET_SPENDER_ADDRESS = ethers.getAddress("0xb300000b72deaeb607a12d5f54773d1c19c7028d")`. -/
def TARGET_SPENDER_ADDRESS : Nat :=
  getAddress ⟨0xb300000b72deaeb607a12d5f54773d1c19c7028d, 0⟩

/-- Source lines 8-9: the 4-byte selector of `approve(address,uint256)`,
computed in the source as the leading 4 bytes of `ethers.id` (keccak-256 of
the ASCII signature, library code outside this repository).  Its value on
this signature is `0x095ea7b3`, as the source comment on line 9 records; we
embed the selector as that byte sequence. -/
def APPROVE_FUNC_SELECTOR : List Nat := [0x09, 0x5e, 0xa7, 0xb3]

/-- Source line 12: how many recent blocks to scan. -/
def BLOCKS_TO_SCAN : Nat := 100

/-- Source line 13: blocks are fetched in batches of this size. -/
def BATCH_SIZE : Nat := 10

/-- A transaction as delivered by the provider: optional destination address
(absent for contract-creation transactions), call data as a byte sequence
(the `0x`-prefixed hex string of the source, viewed at byte granularity; the
string is never falsy since the empty data renders as `"0x"`), and a hash. -/
structure Tx where
  /-- The source's `tx.to` field (`to` is reserved in Lean). -/
  toAddress : Option AddrStr
  data : List Nat
  hash : Nat
deriving DecidableEq

/-- A block with its prefetched transactions (`provider.getBlock(n, true)`). -/
structure BlockData where
  number : Nat
  prefetchedTransactions : List Tx
deriving DecidableEq

/-- The chain-client collaborator.  `getBlock h = Except.ok none` models a
`null` result, `Except.error ()` a rejected fetch promise (the payload is
only ever logged, so it is modelled as `Unit`); `nameOf a = none` models a
failed or reverted `name()` call during enrichment. -/
structure Chain where
  latest : Nat
  getBlock : Nat → Except Unit (Option BlockData)
  nameOf : Nat → Option String

/-- Decoded `approve` call data: the function name, the spender argument
`args[0]` (rendered by the decoder in its checksummed casing, tag 0) and the
amount argument `args[1]`. -/
structure DecodedCall where
  name : String
  spender : AddrStr
  amount : Nat
deriving DecidableEq

/-- Big-endian interpretation of a byte list as a natural number. -/
def bytesToNat (l : List Nat) : Nat := l.foldl (fun acc b => acc * 256 + b) 0

/-- Model of `approveInterface.parseTransaction` (source line 76) on the data
of a candidate transaction: the selector is matched against the `approve`
fragment; the two parameters are then read as one 32-byte word each (ethers
v6 `AbiCoder`), where reading past the end of the data or an address word
exceeding 160 bits throws, which the model returns as `none`.  Every failure
mode of the decoder is a `none`. -/
def parseTransaction (data : List Nat) : Option DecodedCall :=
  if data.take 4 = APPROVE_FUNC_SELECTOR then
    let body := data.drop 4
    if 64 ≤ body.length then
      let w1 := bytesToNat (body.take 32)
      let w2 := bytesToNat ((body.drop 32).take 32)
      if w1 < 2 ^ 160 then some ⟨"approve", ⟨w1, 0⟩, w2⟩ else none
    else none
  else none

/-- The guard of source line 73: `tx.to && tx.data && tx.data.startsWith(APPROVE_FUNC_SELECTOR)`.
At byte granularity the string comparison is: the data has at least 4 bytes
and they equal the selector (`tx.data` itself is never falsy, see `Tx`). -/
def matchesApprove (tx : Tx) : Bool :=
  tx.toAddress.isSome && decide (tx.data.take 4 = APPROVE_FUNC_SELECTOR)

/-- Source lines 71-99: processing of one transaction against the current
`foundTokens` registry.  The decode failure of line 94 is the `none` branch
of `parseTransaction`; registry membership is the `Set.has` test of line 86
and insertion the `Set.add` of line 90 (append, as JavaScript sets iterate
in insertion order). -/
def processTx (foundTokens : List Nat) (tx : Tx) : List Nat :=
  match tx.toAddress with
  | none => foundTokens
  | some toAddr =>
    if tx.data.take 4 = APPROVE_FUNC_SELECTOR then
      match parseTransaction tx.data with
      | none => foundTokens
      | some decodedData =>
        if decodedData.name = "approve" then
          let tokenAddress := getAddress toAddr
          if getAddress decodedData.spender = TARGET_SPENDER_ADDRESS then
            if tokenAddress ∈ foundTokens then foundTokens
            else foundTokens ++ [tokenAddress]
          else foundTokens
        else foundTokens
    else foundTokens

/-- Source lines 65-100: a `null` block or one without transactions is
skipped, otherwise its transactions are processed in delivery order. -/
def processBlock (foundTokens : List Nat) (b : Option BlockData) : List Nat :=
  match b with
  | none => foundTokens
  | some blk => blk.prefetchedTransactions.foldl processTx foundTokens

/-- Source line 47: `startBlock = Math.max(0, latestBlockNumber - BLOCKS_TO_SCAN + 1)`,
computed over signed numbers as in JavaScript. -/
def startBlock (latest window : Nat) : Nat :=
  (max 0 ((latest : Int) - (window : Int) + 1)).toNat

/-- The batch loop of source lines 51-60: starting at `cur` with `total`
heights left, one batch covers `cur .. min (cur + bs - 1) latest`, that is
`min bs total` heights, and the loop advances by `bs`.  The extra `fuel`
argument makes the recursion structural; it is instantiated with `total`,
which bounds the number of batches whenever `0 < bs`. -/
def batchesFromAux (fuel cur total bs : Nat) : List (List Nat) :=
  match fuel, total with
  | 0, _ => []
  | _, 0 => []
  | fuel + 1, t + 1 =>
    List.range' cur (min bs (t + 1)) :: batchesFromAux fuel (cur + bs) (t + 1 - bs) bs

/-- The batches of block heights visited by the scan loop. -/
def scanBatches (latest window bs : Nat) : List (List Nat) :=
  let sb := startBlock latest window
  batchesFromAux (latest + 1 - sb) sb (latest + 1 - sb) bs

/-- Whether a fetch result is a rejected promise. -/
def isRejected (r : Except Unit (Option BlockData)) : Bool :=
  match r with
  | Except.error _ => true
  | Except.ok _ => false

/-- The block carried by a non-rejected fetch result. -/
def blockOrNone (r : Except Unit (Option BlockData)) : Option BlockData :=
  match r with
  | Except.error _ => none
  | Except.ok b => b

/-- Model of `Promise.all` over the fetches of one batch (source line 62):
if any fetch rejected, the combined promise rejects, otherwise it delivers
the list of results. -/
def promiseAll : List (Except Unit (Option BlockData)) → Except Unit (List (Option BlockData))
  | [] => Except.ok []
  | r :: rs =>
    match r with
    | Except.error e => Except.error e
    | Except.ok b => (promiseAll rs).map (fun l => b :: l)

/-- One iteration of the outer batch loop (source lines 51-103): fetch every
height of the batch concurrently, await them all, then process the resolved
blocks in order against the registry.  A rejection propagates out of the
loop to the top-level catch of line 128. -/
def runBatch (c : Chain) (foundTokens : List Nat) (batch : List Nat) :
    Except Unit (List Nat) :=
  match promiseAll (batch.map c.getBlock) with
  | Except.error e => Except.error e
  | Except.ok blocks => Except.ok (blocks.foldl processBlock foundTokens)

/-- The block-scanning part of `scanRecentApprovals` (source lines 45-103),
parameterized by window and batch size (the source fixes them to
`BLOCKS_TO_SCAN` and `BATCH_SIZE`): the registry accumulated over all
batches, or the rejection that aborted the loop. -/
def scanBlocksE (c : Chain) (window bs : Nat) : Except Unit (List Nat) :=
  (scanBatches c.latest window bs).foldlM (runBatch c) []

/-- Whether some height of the list has a rejecting fetch. -/
def hasRejection (c : Chain) (hs : List Nat) : Bool :=
  hs.any fun h => isRejected (c.getBlock h)

/-- Batch-free reference scan: process the heights one after the other,
treating a rejected fetch like a missing block.  Used to state that batching
is about fetch grouping only. -/
def flatScan (c : Chain) (foundTokens : List Nat) (hs : List Nat) : List Nat :=
  hs.foldl (fun fd h => processBlock fd (blockOrNone (c.getBlock h))) foundTokens

/-- A row of the final report. -/
structure TokenRecord where
  address : Nat
  name : String
deriving DecidableEq

/-- Source lines 113-124: the enrichment loop.  For each registry entry, in
registry iteration order, a `name()` call is made; a failed call (the
`none` branch) is caught per token and recorded as the sentinel string of
line 122. -/
def enrich (nameOf : Nat → Option String) (tokens : List Nat) : List TokenRecord :=
  tokens.foldl
    (fun results tokenAddr =>
      match nameOf tokenAddr with
      | some n => results ++ [⟨tokenAddr, n⟩]
      | none => results ++ [⟨tokenAddr, "<Error fetching name>"⟩])
    []

/-- The record the enrichment loop pushes for one token address. -/
def enrichOne (nameOf : Nat → Option String) (tokenAddr : Nat) : TokenRecord :=
  match nameOf tokenAddr with
  | some n => ⟨tokenAddr, n⟩
  | none => ⟨tokenAddr, "<Error fetching name>"⟩

/-- Environment of one program run: the configured URL after the
`process.env` default of line 6 was applied, whether the connectivity probe
of lines 36-39 succeeds, and the chain served afterwards. -/
structure RunEnv where
  bscRpcUrl : String
  connectOk : Bool
  chain : Chain

/-- Source lines 29-135, at the level of promise resolution: the catch of
lines 40-43 turns a connectivity failure into a logged message and a normal
return, and the catch of lines 128-129 does the same for anything thrown by
the scan loop, so the async function's promise always resolves. -/
def scanRecentApprovals (env : RunEnv) : Except Unit Unit :=
  if env.connectOk = false then Except.ok ()
  else
    match scanBlocksE env.chain BLOCKS_TO_SCAN BATCH_SIZE with
    | Except.error _ => Except.ok ()
    | Except.ok _ => Except.ok ()

/-- Source lines 138-146: the exit status of the process.  `process.exit(1)`
runs only when the promise of `scanRecentApprovals` rejects; a configuration
error only logs, so the process ends with status 0. -/
def mainExitCode (env : RunEnv) : Nat :=
  if env.bscRpcUrl = "" ∨ env.bscRpcUrl = "YOUR_BSC_RPC_URL" then 0
  else
    match scanRecentApprovals env with
    | Except.ok _ => 0
    | Except.error _ => 1

/-- Source line 6: `BSC_RPC_URL = process.env.BSC_RPC_URL || "YOUR_BSC_RPC_URL"`.
An absent variable, or an empty (falsy) one, yields the placeholder. -/
def resolveRpcUrl (envVar : Option String) : String :=
  match envVar with
  | none => "YOUR_BSC_RPC_URL"
  | some s => if s = "" then "YOUR_BSC_RPC_URL" else s

/-- What the top level of the script does. -/
inductive MainAction where
  | configError : MainAction
  | runScan : MainAction
deriving DecidableEq

/-- Source lines 138-146: the scan is invoked unless the resolved URL is
falsy or still the placeholder, in which case only a configuration error is
reported. -/
def mainAction (envVar : Option String) : MainAction :=
  let url := resolveRpcUrl envVar
  if url = "" ∨ url = "YOUR_BSC_RPC_URL" then MainAction.configError
  else MainAction.runScan

/-- Big-endian byte rendering of a number in a fixed width, for building
concrete call data in examples. -/
def padBE : Nat → Nat → List Nat
  | 0, _ => []
  | k + 1, n => padBE k (n / 256) ++ [n % 256]

/-- The 160-bit value of the target spender address of source line 7. -/
def targetBytes : Nat := 0xb300000b72deaeb607a12d5f54773d1c19c7028d

/-- Call data of an `approve` of the target spender for amount 1000. -/
def dataApprove : List Nat := APPROVE_FUNC_SELECTOR ++ padBE 32 targetBytes ++ padBE 32 1000

/-- A transaction approving the target spender on token contract 0x1111. -/
def txApprove : Tx := ⟨some ⟨0x1111, 0⟩, dataApprove, 7⟩

/-- The decoded form of `dataApprove`. -/
def decodedApprove : DecodedCall := ⟨"approve", ⟨targetBytes, 0⟩, 1000⟩

/-- A selector-matching transaction whose call data is too short to decode. -/
def txBad : Tx := ⟨some ⟨0x3333, 0⟩, APPROVE_FUNC_SELECTOR ++ [1, 2, 3], 9⟩

/-- A small chain: latest height 5, the approval transaction in block 5,
all other blocks resolving to `null`. -/
def chainEx : Chain :=
  ⟨5, fun h => if h = 5 then Except.ok (some ⟨5, [txApprove]⟩) else Except.ok none,
   fun _ => none⟩

/-- Like `chainEx` except the fetch of block 4 rejects. -/
def chainFail : Chain :=
  ⟨5, fun h => if h = 5 then Except.ok (some ⟨5, [txApprove]⟩)
      else if h = 4 then Except.error () else Except.ok none,
   fun _ => none⟩

/-- Like `chainEx` except height 4 resolves to an empty block instead of `null`. -/
def chainNullE : Chain :=
  ⟨5, fun h => if h = 4 then Except.ok (some ⟨4, []⟩) else chainEx.getBlock h,
   fun _ => none⟩

/-- A `name()` oracle that answers for token 0x1111 and fails for all others. -/
def nameOfEx : Nat → Option String := fun a => if a = 0x1111 then some "TokenOne" else none

/-- A run whose URL is configured but whose connectivity check fails. -/
def envConnFail : RunEnv := ⟨"https://bsc-dataseed.example", false, chainEx⟩

end IdoScanner

namespace IdoScanner

/-! ### Helper lemmas -/

theorem startBlock_eq (latest window : Nat) :
    startBlock latest window = latest + 1 - window := by
  unfold startBlock
  rcases le_or_lt ((latest : Int) - (window : Int) + 1) 0 with h | h
  · rw [max_eq_left h]
    omega
  · rw [max_eq_right (le_of_lt h)]
    omega

theorem batchesFromAux_flatten (bs : Nat) (hbs : 0 < bs) :
    ∀ fuel cur total, total ≤ fuel →
      (batchesFromAux fuel cur total bs).flatten = List.range' cur total := by
  intro fuel
  induction fuel with
  | zero =>
    intro cur total h
    have h0 : total = 0 := Nat.le_zero.mp h
    subst h0
    simp [batchesFromAux]
  | succ fuel ih =>
    intro cur total h
    match total with
    | 0 => simp [batchesFromAux]
    | t + 1 =>
      show (List.range' cur (min bs (t + 1)) ::
        batchesFromAux fuel (cur + bs) (t + 1 - bs) bs).flatten = _
      rw [List.flatten_cons, ih (cur + bs) (t + 1 - bs) (by omega)]
      rcases Nat.le_total bs (t + 1) with hle | hle
      · rw [Nat.min_eq_left hle]
        have h2 := List.range'_append_1 cur bs (t + 1 - bs)
        rw [h2]
        congr 1
        omega
      · rw [Nat.min_eq_right hle, Nat.sub_eq_zero_of_le hle]
        simp

theorem batchesFromAux_mem (bs : Nat) (hbs : 0 < bs) :
    ∀ fuel cur total b, b ∈ batchesFromAux fuel cur total bs →
      ∃ s n, b = List.range' s n ∧ n ≤ bs ∧ 0 < n := by
  intro fuel
  induction fuel with
  | zero =>
    intro cur total b hb
    simp [batchesFromAux] at hb
  | succ fuel ih =>
    intro cur total b hb
    match total with
    | 0 => simp [batchesFromAux] at hb
    | t + 1 =>
      rcases List.mem_cons.mp hb with hb | hb
      · exact ⟨cur, min bs (t + 1), hb, Nat.min_le_left _ _, by omega⟩
      · exact ih _ _ _ hb

theorem flatScan_append (c : Chain) (found : List Nat) (hs₁ hs₂ : List Nat) :
    flatScan c found (hs₁ ++ hs₂) = flatScan c (flatScan c found hs₁) hs₂ := by
  unfold flatScan
  rw [List.foldl_append]

theorem promiseAll_spec (c : Chain) :
    ∀ batch : List Nat,
      promiseAll (batch.map c.getBlock)
        = if hasRejection c batch then Except.error ()
          else Except.ok (batch.map fun h => blockOrNone (c.getBlock h)) := by
  intro batch
  induction batch with
  | nil => rfl
  | cons h t ih =>
    simp only [List.map_cons, promiseAll]
    have hcons : hasRejection c (h :: t)
        = (isRejected (c.getBlock h) || hasRejection c t) := by
      simp [hasRejection]
    rw [ih, hcons]
    cases hr : c.getBlock h with
    | error e =>
      cases e
      simp [isRejected]
    | ok b =>
      cases hrj : hasRejection c t with
      | true => simp [isRejected, Except.map]
      | false => simp [isRejected, Except.map, blockOrNone]

theorem runBatch_spec (c : Chain) (found : List Nat) (batch : List Nat) :
    runBatch c found batch
      = if hasRejection c batch then Except.error ()
        else Except.ok (flatScan c found batch) := by
  unfold runBatch
  rw [promiseAll_spec]
  cases hr : hasRejection c batch with
  | true => rfl
  | false =>
    have h1 : ¬ (false = true) := by simp
    rw [if_neg h1, if_neg h1]
    unfold flatScan
    show Except.ok (List.foldl processBlock found (batch.map fun h => blockOrNone (c.getBlock h)))
        = _
    rw [List.foldl_map]

theorem scanFold_spec (c : Chain) :
    ∀ (bl : List (List Nat)) (found : List Nat),
      bl.foldlM (runBatch c) found
        = if hasRejection c bl.flatten then Except.error ()
          else Except.ok (flatScan c found bl.flatten) := by
  intro bl
  induction bl with
  | nil => intro found; rfl
  | cons b bs ih =>
    intro found
    rw [List.foldlM_cons, runBatch_spec]
    have hcons : hasRejection c ((b :: bs).flatten)
        = (hasRejection c b || hasRejection c bs.flatten) := by
      simp [hasRejection, List.any_append]
    rw [hcons, List.flatten_cons, flatScan_append]
    cases hb : hasRejection c b with
    | true => rfl
    | false =>
      show List.foldlM (runBatch c) (flatScan c found b) bs = _
      rw [ih (flatScan c found b)]
      rfl

theorem scanBlocksE_spec (c : Chain) (w bs : Nat) (hbs : 0 < bs) :
    scanBlocksE c w bs
      = if hasRejection c (List.range' (startBlock c.latest w)
            (c.latest + 1 - startBlock c.latest w))
        then Except.error ()
        else Except.ok (flatScan c []
            (List.range' (startBlock c.latest w) (c.latest + 1 - startBlock c.latest w))) := by
  unfold scanBlocksE scanBatches
  rw [scanFold_spec, batchesFromAux_flatten bs hbs _ _ _ (le_refl _)]

theorem parseTransaction_some {data : List Nat} {d : DecodedCall}
    (h : parseTransaction data = some d) :
    data.take 4 = APPROVE_FUNC_SELECTOR ∧ d.name = "approve" := by
  unfold parseTransaction at h
  split at h
  · simp only [] at h
    split at h
    · split at h
      · refine ⟨by assumption, ?_⟩
        injection h with h'
        rw [← h']
      · exact absurd h (by simp)
    · exact absurd h (by simp)
  · exact absurd h (by simp)

theorem processTx_none (found : List Nat) (tx : Tx) (h : tx.toAddress = none) :
    processTx found tx = found := by
  unfold processTx
  rw [h]

theorem processTx_some (found : List Nat) (tx : Tx) (a : AddrStr)
    (h : tx.toAddress = some a) :
    processTx found tx =
      if tx.data.take 4 = APPROVE_FUNC_SELECTOR then
        match parseTransaction tx.data with
        | none => found
        | some decodedData =>
          if decodedData.name = "approve" then
            if getAddress decodedData.spender = TARGET_SPENDER_ADDRESS then
              if getAddress a ∈ found then found else found ++ [getAddress a]
            else found
          else found
      else found := by
  unfold processTx
  rw [h]

theorem processTx_cases (found : List Nat) (tx : Tx) :
    processTx found tx = found ∨
      ∃ a, a ∉ found ∧ a % 2 ^ 160 = a ∧ processTx found tx = found ++ [a] := by
  unfold processTx
  split
  · exact Or.inl rfl
  · split
    · split
      · exact Or.inl rfl
      · split
        · simp only []
          split
          · split
            · exact Or.inl rfl
            · rename_i hmem
              exact Or.inr ⟨_, hmem, Nat.mod_mod_of_dvd _ dvd_rfl, rfl⟩
          · exact Or.inl rfl
        · exact Or.inl rfl
    · exact Or.inl rfl

theorem processTx_preserves (found : List Nat) (tx : Tx)
    (h : found.Nodup ∧ ∀ a ∈ found, a % 2 ^ 160 = a) :
    (processTx found tx).Nodup ∧ ∀ a ∈ processTx found tx, a % 2 ^ 160 = a := by
  rcases processTx_cases found tx with heq | ⟨a, hmem, hnorm, heq⟩
  · rw [heq]; exact h
  · rw [heq]
    constructor
    · exact List.nodup_append.mpr ⟨h.1, List.nodup_singleton a, by
        intro x hx hx'
        rw [List.mem_singleton.mp hx'] at hx
        exact hmem hx⟩
    · intro x hx
      rcases List.mem_append.mp hx with hx | hx
      · exact h.2 x hx
      · rw [List.mem_singleton.mp hx]
        exact hnorm

theorem processTx_extends (found : List Nat) (tx : Tx) :
    ∃ t, processTx found tx = found ++ t := by
  rcases processTx_cases found tx with heq | ⟨a, _, _, heq⟩
  · exact ⟨[], by rw [heq, List.append_nil]⟩
  · exact ⟨[a], heq⟩

theorem foldl_processTx_preserves (txs : List Tx) :
    ∀ found, (found.Nodup ∧ ∀ a ∈ found, a % 2 ^ 160 = a) →
      ((txs.foldl processTx found).Nodup ∧
        ∀ a ∈ txs.foldl processTx found, a % 2 ^ 160 = a) := by
  induction txs with
  | nil => intro found h; exact h
  | cons tx txs ih =>
    intro found h
    exact ih (processTx found tx) (processTx_preserves found tx h)

theorem processBlock_preserves (found : List Nat) (b : Option BlockData)
    (h : found.Nodup ∧ ∀ a ∈ found, a % 2 ^ 160 = a) :
    ((processBlock found b).Nodup ∧ ∀ a ∈ processBlock found b, a % 2 ^ 160 = a) := by
  rcases b with _ | blk
  · exact h
  · exact foldl_processTx_preserves blk.prefetchedTransactions found h

theorem flatScan_preserves (c : Chain) (hs : List Nat) :
    ∀ found, (found.Nodup ∧ ∀ a ∈ found, a % 2 ^ 160 = a) →
      ((flatScan c found hs).Nodup ∧ ∀ a ∈ flatScan c found hs, a % 2 ^ 160 = a) := by
  induction hs with
  | nil => intro found h; exact h
  | cons h0 hs ih =>
    intro found h
    exact ih (processBlock found (blockOrNone (c.getBlock h0)))
      (processBlock_preserves found _ h)

theorem enrich_shape (nameOf : Nat → Option String) :
    ∀ (tokens : List Nat) (acc : List TokenRecord),
      tokens.foldl
        (fun results tokenAddr =>
          match nameOf tokenAddr with
          | some n => results ++ [⟨tokenAddr, n⟩]
          | none => results ++ [⟨tokenAddr, "<Error fetching name>"⟩])
        acc
      = acc ++ tokens.map (enrichOne nameOf) := by
  intro tokens
  induction tokens with
  | nil => intro acc; simp
  | cons t ts ih =>
    intro acc
    rw [List.foldl_cons, ih, List.map_cons]
    cases hn : nameOf t with
    | some n => simp [enrichOne, hn]
    | none => simp [enrichOne, hn]

theorem enrich_eq_map (nameOf : Nat → Option String) (tokens : List Nat) :
    enrich nameOf tokens = tokens.map (enrichOne nameOf) := by
  unfold enrich
  rw [enrich_shape]
  simp

/-! ### Claim theorems -/

/-- Claim C1: for every latest height, window size and positive batch size,
the scan's start height is `max 0 (latest - window + 1)` computed over
signed integers, the visited heights are exactly the inclusive range from
the start height to the latest height with no gaps and no repeats, and they
are partitioned into consecutive ascending nonempty batches each of size at
most the batch size. -/
theorem scan_block_range_partition (latest window bs : Nat) (hbs : 0 < bs) :
    ((startBlock latest window : Int) = max 0 ((latest : Int) - (window : Int) + 1))
    ∧ (scanBatches latest window bs).flatten
        = List.range' (startBlock latest window) (latest + 1 - startBlock latest window)
    ∧ (∀ h, h ∈ (scanBatches latest window bs).flatten ↔
        startBlock latest window ≤ h ∧ h ≤ latest)
    ∧ (scanBatches latest window bs).flatten.Nodup
    ∧ (∀ b ∈ scanBatches latest window bs, ∃ s n, b = List.range' s n ∧ n ≤ bs ∧ 0 < n) := by
  have hflat : (scanBatches latest window bs).flatten
      = List.range' (startBlock latest window) (latest + 1 - startBlock latest window) := by
    unfold scanBatches
    exact batchesFromAux_flatten bs hbs _ _ _ (le_refl _)
  refine ⟨?_, hflat, ?_, ?_, ?_⟩
  · unfold startBlock
    exact Int.toNat_of_nonneg (le_max_left 0 _)
  · intro h
    rw [hflat, List.mem_range'_1]
    have hsb : startBlock latest window ≤ latest + 1 := by
      rw [startBlock_eq]
      omega
    omega
  · rw [hflat]
    exact List.nodup_range' _ _
  · intro b hb
    exact batchesFromAux_mem bs hbs _ _ _ b hb

/-- Witness for C1 at latest height 7, window 5 and batch size 3. -/
theorem scan_block_range_partition_witness :
    ((startBlock 7 5 : Int) = max 0 ((7 : Int) - (5 : Int) + 1))
    ∧ (scanBatches 7 5 3).flatten = List.range' (startBlock 7 5) (7 + 1 - startBlock 7 5)
    ∧ (∀ h, h ∈ (scanBatches 7 5 3).flatten ↔ startBlock 7 5 ≤ h ∧ h ≤ 7)
    ∧ (scanBatches 7 5 3).flatten.Nodup
    ∧ (∀ b ∈ scanBatches 7 5 3, ∃ s n, b = List.range' s n ∧ n ≤ 3 ∧ 0 < n) :=
  scan_block_range_partition 7 5 3 (by decide)

/-- Claim C2: the selector matcher is a pure predicate that holds exactly
when the destination address is present, the call data is at least 4 bytes
long and its leading 4 bytes equal the `approve(address,uint256)` selector;
in particular it is false for every transaction without a destination
address, and a transaction it rejects leaves the registry untouched. -/
theorem selector_matcher_pure_predicate :
    (∀ tx : Tx, matchesApprove tx = true ↔
        (tx.toAddress.isSome = true ∧ 4 ≤ tx.data.length
          ∧ tx.data.take 4 = APPROVE_FUNC_SELECTOR))
    ∧ (∀ tx : Tx, tx.toAddress = none → matchesApprove tx = false)
    ∧ (∀ (found : List Nat) (tx : Tx),
        matchesApprove tx = false → processTx found tx = found) := by
  refine ⟨?_, ?_, ?_⟩
  · intro tx
    unfold matchesApprove
    constructor
    · intro h
      have h1 := (Bool.and_eq_true _ _).mp h
      have hsel := of_decide_eq_true h1.2
      refine ⟨h1.1, ?_, hsel⟩
      have hlen : (tx.data.take 4).length = 4 := by
        rw [hsel]
        rfl
      rw [List.length_take] at hlen
      rcases Nat.le_total 4 tx.data.length with h4 | h4
      · exact h4
      · rw [Nat.min_eq_right h4] at hlen
        omega
    · intro ⟨h1, _, h3⟩
      simp [h1, h3]
  · intro tx h
    unfold matchesApprove
    rw [h]
    rfl
  · intro found tx h
    cases htx : tx.toAddress with
    | none => exact processTx_none found tx htx
    | some toAddr =>
      unfold matchesApprove at h
      rw [htx] at h
      simp only [Option.isSome_some, Bool.true_and, decide_eq_false_iff_not] at h
      rw [processTx_some found tx toAddr htx, if_neg h]

/-- Witness for C2: the concrete approval transaction matches. -/
theorem selector_matcher_pure_predicate_witness : matchesApprove txApprove = true :=
  (selector_matcher_pure_predicate.1 txApprove).mpr ⟨rfl, by decide, rfl⟩

/-- Claim C3: for every successfully decoded candidate transaction the
approval filter adds the transaction's destination address (the token
contract, not the spender) exactly when the decoded name is "approve" and
the checksum-normalized spender equals the normalized configured target;
normalization depends only on the address bytes, so two byte-equal but
textually different addresses compare equal. -/
theorem approval_filter_spec :
    (∀ (found : List Nat) (tx : Tx) (a : AddrStr) (d : DecodedCall),
        tx.toAddress = some a → parseTransaction tx.data = some d →
        processTx found tx
          = if d.name = "approve" ∧ getAddress d.spender = TARGET_SPENDER_ADDRESS then
              (if getAddress a ∈ found then found else found ++ [getAddress a])
            else found)
    ∧ (∀ s₁ s₂ : AddrStr, s₁.bytes = s₂.bytes → getAddress s₁ = getAddress s₂) := by
  constructor
  · intro found tx a d hto hp
    have hsel := (parseTransaction_some hp).1
    have hname := (parseTransaction_some hp).2
    rw [processTx_some found tx a hto, if_pos hsel]
    simp only [hp]
    rw [if_pos hname]
    by_cases hsp : getAddress d.spender = TARGET_SPENDER_ADDRESS
    · rw [if_pos (show d.name = "approve" ∧ getAddress d.spender = TARGET_SPENDER_ADDRESS from
        ⟨hname, hsp⟩), if_pos hsp]
    · rw [if_neg (show ¬(d.name = "approve" ∧ getAddress d.spender = TARGET_SPENDER_ADDRESS) from
        fun hc => hsp hc.2), if_neg hsp]
  · intro s₁ s₂ h
    unfold getAddress
    rw [h]

/-- Witness for C3 at the concrete approval transaction and empty registry. -/
theorem approval_filter_spec_witness :
    processTx [] txApprove
      = if decodedApprove.name = "approve"
          ∧ getAddress decodedApprove.spender = TARGET_SPENDER_ADDRESS then
          (if getAddress ⟨0x1111, 0⟩ ∈ ([] : List Nat) then []
            else [] ++ [getAddress ⟨0x1111, 0⟩])
        else [] :=
  approval_filter_spec.1 [] txApprove ⟨0x1111, 0⟩ decodedApprove rfl (by decide)

/-- Claim C4: the token registry is a set keyed by the normalized address:
every registry the scan returns is duplicate-free and holds only normalized
entries (so no two entries normalize to the same 20-byte address, whatever
casing they were observed in), each processing step keeps it duplicate-free,
and each step only appends, so an address once added is never removed. -/
theorem token_registry_set_semantics (c : Chain) (w bs : Nat) :
    (∀ r, scanBlocksE c w bs = Except.ok r →
        r.Nodup ∧ ∀ a ∈ r, a % 2 ^ 160 = a)
    ∧ (∀ (found : List Nat) (tx : Tx), found.Nodup → (processTx found tx).Nodup)
    ∧ (∀ (found : List Nat) (tx : Tx), ∃ t, processTx found tx = found ++ t) := by
  refine ⟨?_, ?_, ?_⟩
  · intro r hr
    unfold scanBlocksE at hr
    rw [scanFold_spec] at hr
    split at hr
    · exact absurd hr (by simp)
    · injection hr with hr'
      rw [← hr']
      exact flatScan_preserves c _ [] ⟨List.nodup_nil, by intro a ha; simp at ha⟩
  · intro found tx hn
    rcases processTx_cases found tx with heq | ⟨a, hmem, _, heq⟩
    · rw [heq]; exact hn
    · rw [heq]
      exact List.nodup_append.mpr ⟨hn, List.nodup_singleton a, by
        intro x hx hx'
        rw [List.mem_singleton.mp hx'] at hx
        exact hmem hx⟩
  · intro found tx
    exact processTx_extends found tx

/-- Witness for C4 at the concrete example chain and a concrete step. -/
theorem token_registry_set_semantics_witness :
    (([0x1111] : List Nat).Nodup ∧ ∀ a ∈ ([0x1111] : List Nat), a % 2 ^ 160 = a)
    ∧ (processTx [0x2222] txApprove).Nodup :=
  ⟨(token_registry_set_semantics chainEx 100 10).1 [0x1111] (by rfl),
   (token_registry_set_semantics chainEx 100 10).2.1 [0x2222] txApprove (by decide)⟩

/-- Claim C5: two runs over the same chain that differ only in their
(positive) batch size produce the same outcome; batching affects only fetch
grouping, not which tokens are discovered. -/
theorem batch_size_independent (c : Chain) (w bs₁ bs₂ : Nat)
    (h₁ : 0 < bs₁) (h₂ : 0 < bs₂) :
    scanBlocksE c w bs₁ = scanBlocksE c w bs₂ := by
  rw [scanBlocksE_spec c w bs₁ h₁, scanBlocksE_spec c w bs₂ h₂]

/-- Witness for C5: batch sizes 10 and 3 on the example chain. -/
theorem batch_size_independent_witness :
    scanBlocksE chainEx 100 10 = scanBlocksE chainEx 100 3 :=
  batch_size_independent chainEx 100 10 3 (by decide) (by decide)

/-- Claim C6, amended: a block fetch that resolves to `null` is treated as a
block with no transactions — replacing such a height by an empty block
leaves the entire scan unchanged, so the scan continues with all remaining
blocks and batches and the registry from other blocks is unaffected.  A
fetch whose promise rejects is not covered: it aborts the scan (see the
counterexample). -/
theorem null_fetch_treated_as_empty (c c' : Chain) (h0 w bs : Nat)
    (hl : c'.latest = c.latest)
    (hg : ∀ h, c'.getBlock h = if h = h0 then Except.ok (some ⟨h0, []⟩) else c.getBlock h)
    (hn : c.getBlock h0 = Except.ok none) :
    scanBlocksE c' w bs = scanBlocksE c w bs := by
  unfold scanBlocksE
  rw [hl]
  rw [scanFold_spec, scanFold_spec]
  have hrj : ∀ hs : List Nat, hasRejection c' hs = hasRejection c hs := by
    intro hs
    unfold hasRejection
    refine congrArg _ (funext fun h => ?_)
    rw [hg h]
    by_cases hh : h = h0
    · rw [if_pos hh, hh, hn]
      rfl
    · rw [if_neg hh]
  have hfs : ∀ hs found, flatScan c' found hs = flatScan c found hs := by
    intro hs found
    unfold flatScan
    have hfpt : (fun (fd : List Nat) h => processBlock fd (blockOrNone (c'.getBlock h)))
        = fun fd h => processBlock fd (blockOrNone (c.getBlock h)) := by
      funext fd h
      rw [hg h]
      by_cases hh : h = h0
      · rw [if_pos hh, hh, hn]
        rfl
      · rw [if_neg hh]
    rw [hfpt]
  rw [hrj, hfs]

/-- Witness for the amended C6: height 4 of the example chain resolves to
`null`, and replacing it by an empty block leaves the scan unchanged. -/
theorem null_fetch_treated_as_empty_witness :
    scanBlocksE chainNullE 100 10 = scanBlocksE chainEx 100 10 :=
  null_fetch_treated_as_empty chainEx chainNullE 4 100 10 rfl (fun _ => rfl) rfl

/-- Claim C6 counterexample: `chainEx` and `chainFail` agree everywhere
except at height 4, where the fetch resolves to `null` in one and rejects in
the other.  The claim says a failed fetch is non-fatal and the scan
continues with all remaining blocks, which would find the approval in
block 5; the code only does so for the `null` result — the rejection
propagates out of `Promise.all` to the top-level catch and aborts the
scan. -/
theorem rejected_fetch_aborts_scan :
    chainFail.getBlock 4 = Except.error ()
    ∧ chainFail.getBlock 5 = chainEx.getBlock 5
    ∧ chainFail.latest = chainEx.latest
    ∧ scanBlocksE chainEx 100 10 = Except.ok [0x1111]
    ∧ scanBlocksE chainFail 100 10 = Except.error () :=
  ⟨rfl, rfl, rfl, rfl, rfl⟩

/-- Claim C7: a selector-matching transaction whose call data fails to
decode is caught at the per-transaction scope: it leaves the registry
unchanged, and deleting it from any transaction sequence does not change
the resulting fold, so sibling transactions and earlier registry state are
unaffected and the failure never escapes the transaction. -/
theorem decode_failure_contained :
    (∀ (found : List Nat) (tx : Tx),
        parseTransaction tx.data = none → processTx found tx = found)
    ∧ (∀ (found : List Nat) (pre post : List Tx) (tx : Tx),
        parseTransaction tx.data = none →
        (pre ++ tx :: post).foldl processTx found = (pre ++ post).foldl processTx found) := by
  have h1 : ∀ (found : List Nat) (tx : Tx),
      parseTransaction tx.data = none → processTx found tx = found := by
    intro found tx hp
    cases htx : tx.toAddress with
    | none => exact processTx_none found tx htx
    | some toAddr =>
      rw [processTx_some found tx toAddr htx]
      by_cases hsel : tx.data.take 4 = APPROVE_FUNC_SELECTOR
      · rw [if_pos hsel]
        simp only [hp]
      · rw [if_neg hsel]
  refine ⟨h1, ?_⟩
  intro found pre post tx hp
  rw [List.foldl_append, List.foldl_append, List.foldl_cons, h1 _ tx hp]

/-- Witness for C7 at a concrete malformed transaction. -/
theorem decode_failure_contained_witness :
    processTx [0x1111] txBad = [0x1111]
    ∧ ([txApprove] ++ txBad :: []).foldl processTx []
        = ([txApprove] ++ []).foldl processTx [] :=
  ⟨decode_failure_contained.1 [0x1111] txBad (by decide),
   decode_failure_contained.2 [] [txApprove] [] txBad (by decide)⟩

/-- Claim C8: enrichment produces exactly one record per registry entry, in
registry iteration order; the record at position i depends only on the
token at position i, a failed `name()` call yields the sentinel error
marker as the name, and a successful one yields the fetched name — so one
token's failure never affects the other records. -/
theorem enrichment_per_token (nameOf : Nat → Option String) (tokens : List Nat) :
    (enrich nameOf tokens).length = tokens.length
    ∧ (∀ i : Nat, (enrich nameOf tokens)[i]? = Option.map (enrichOne nameOf) tokens[i]?)
    ∧ (∀ a, nameOf a = none → enrichOne nameOf a = ⟨a, "<Error fetching name>"⟩)
    ∧ (∀ a n, nameOf a = some n → enrichOne nameOf a = ⟨a, n⟩) := by
  refine ⟨?_, ?_, ?_, ?_⟩
  · rw [enrich_eq_map]
    simp
  · intro i
    rw [enrich_eq_map]
    simp
  · intro a ha
    unfold enrichOne
    rw [ha]
  · intro a n ha
    unfold enrichOne
    rw [ha]

/-- Witness for C8 at a concrete registry and name oracle. -/
theorem enrichment_per_token_witness :
    (enrich nameOfEx [0x1111, 0x2222]).length = ([0x1111, 0x2222] : List Nat).length
    ∧ enrichOne nameOfEx 0x2222 = ⟨0x2222, "<Error fetching name>"⟩ :=
  ⟨(enrichment_per_token nameOfEx [0x1111, 0x2222]).1,
   (enrichment_per_token nameOfEx [0x1111, 0x2222]).2.2.1 0x2222 (by decide)⟩

/-- Claim C9, amended: the process always exits with status zero.  The
connectivity catch (source lines 40-43) and the top-level scan catch (lines
128-129) log the failure and return normally, so the promise of
`scanRecentApprovals` never rejects and the `process.exit(1)` handler of
line 144 is unreachable; a configuration error also only logs. -/
theorem process_always_exits_zero (env : RunEnv) : mainExitCode env = 0 := by
  have hok : ∃ u, scanRecentApprovals env = Except.ok u := by
    unfold scanRecentApprovals
    by_cases hc : env.connectOk = false
    · rw [if_pos hc]
      exact ⟨(), rfl⟩
    · rw [if_neg hc]
      cases scanBlocksE env.chain BLOCKS_TO_SCAN BATCH_SIZE with
      | error e => exact ⟨(), rfl⟩
      | ok r => exact ⟨(), rfl⟩
  unfold mainExitCode
  split
  · rfl
  · rcases hok with ⟨u, hu⟩
    rw [hu]

/-- Claim C9 counterexample: a run with a configured, non-placeholder URL
whose connectivity check fails still exits with status 0, although the
claim requires a non-zero exit exactly in that situation. -/
theorem connect_failure_exits_zero :
    envConnFail.bscRpcUrl ≠ ""
    ∧ envConnFail.bscRpcUrl ≠ "YOUR_BSC_RPC_URL"
    ∧ envConnFail.connectOk = false
    ∧ mainExitCode envConnFail = 0 :=
  ⟨by decide, by decide, rfl, by decide⟩

/-- Claim C10: the top level invokes the scan exactly when the resolved RPC
URL comes from a configured, non-empty, non-placeholder environment value;
when the variable is absent, empty, or still the placeholder
"YOUR_BSC_RPC_URL", it reports a configuration error and the scan is never
invoked. -/
theorem config_guard_spec (envVar : Option String) :
    (mainAction envVar = MainAction.runScan ↔
      ∃ s, envVar = some s ∧ s ≠ "" ∧ s ≠ "YOUR_BSC_RPC_URL")
    ∧ (mainAction envVar = MainAction.configError ↔
      envVar = none ∨ envVar = some "" ∨ envVar = some "YOUR_BSC_RPC_URL") := by
  cases envVar with
  | none =>
    refine ⟨⟨fun h => absurd h (by decide), ?_⟩, ⟨fun _ => Or.inl rfl, fun _ => by decide⟩⟩
    rintro ⟨s, hs, _⟩
    exact absurd hs (by simp)
  | some s =>
    by_cases h1 : s = ""
    · subst h1
      refine ⟨⟨fun h => absurd h (by decide), ?_⟩,
        ⟨fun _ => Or.inr (Or.inl rfl), fun _ => by decide⟩⟩
      rintro ⟨t, ht, hne, _⟩
      injection ht with ht'
      exact absurd ht'.symm hne
    · by_cases h2 : s = "YOUR_BSC_RPC_URL"
      · subst h2
        refine ⟨⟨fun h => absurd h (by decide), ?_⟩,
          ⟨fun _ => Or.inr (Or.inr rfl), fun _ => by decide⟩⟩
        rintro ⟨t, ht, _, hne⟩
        injection ht with ht'
        exact absurd ht'.symm hne
      · have hact : mainAction (some s) = MainAction.runScan := by
          simp only [mainAction, resolveRpcUrl, if_neg h1]
          rw [if_neg (show ¬(s = "" ∨ s = "YOUR_BSC_RPC_URL") from
            fun hor => hor.elim h1 h2)]
        refine ⟨⟨fun _ => ⟨s, rfl, h1, h2⟩, fun _ => hact⟩, ⟨?_, ?_⟩⟩
        · intro h
          rw [hact] at h
          exact absurd h (by decide)
        · rintro (h | h | h)
          · exact absurd h (by simp)
          · injection h with h'
            exact absurd h' h1
          · injection h with h'
            exact absurd h' h2

/-- Witness for C10 at a concrete configured URL. -/
theorem config_guard_spec_witness :
    mainAction (some "https://bsc-dataseed.example") = MainAction.runScan :=
  (config_guard_spec (some "https://bsc-dataseed.example")).1.mpr
    ⟨"https://bsc-dataseed.example", rfl, by decide, by decide⟩

end IdoScanner
